import Mathlib

/-!
Shallow embedding of the SCA scan orchestration logic of
`xray/commands/audit/scarunner.go` (jfrog-cli-core), together with proofs
of the specified properties.

Go conventions are translated as follows: a Go `error` value is
`Option String` (`none` is the nil error); the aggregate error built by
`errors.Join` is a `List String` (the empty list is the nil error);
Go maps that are only iterated are association lists; the `gofrog`
string set is a duplicate-free list built by insertion-ordered `Add`;
external collaborator calls (technology detection, tree builders, the
Xray backend, the filesystem) are explicit parameters of the functions
that make them.
-/

set_option autoImplicit false

namespace Audit

/-- Supported technologies (the members of `coreutils.Technology` this file
dispatches on). -/
inductive Technology where
  | Maven | Gradle | Npm | Yarn | Go | Pip | Pipenv | Poetry | Nuget | Dotnet
  deriving DecidableEq, Repr

/-- String form of a technology, as `Technology.String()` returns it. -/
def Technology.str : Technology → String
  | .Maven => "maven"
  | .Gradle => "gradle"
  | .Npm => "npm"
  | .Yarn => "yarn"
  | .Go => "go"
  | .Pip => "pip"
  | .Pipenv => "pipenv"
  | .Poetry => "poetry"
  | .Nuget => "nuget"
  | .Dotnet => "dotnet"

/-- Mirror of `xrayCmdUtils.GraphNode`: a dependency-tree node with an
identifier and a list of child nodes. -/
inductive GraphNode where
  | mk : String → List GraphNode → GraphNode

/-- Field `Id` of a `GraphNode`. -/
def GraphNode.Id : GraphNode → String
  | .mk i _ => i

/-- Field `Nodes` of a `GraphNode`. -/
def GraphNode.Nodes : GraphNode → List GraphNode
  | .mk _ ns => ns

/-- Mirror of `services.ScanResponse`; its contents are opaque to the
orchestrator, so only an identifying tag is kept. -/
structure ScanResponse where
  tag : String
  deriving DecidableEq, Repr

/-- Mirror of `xrayutils.ScaScanResult`: one scan unit. -/
structure ScaScanResult where
  WorkingDirectory : String
  Technology : Technology
  Descriptors : List String := []
  IsMultipleRootProject : Option Bool := none
  XrayResults : List ScanResponse := []
  deriving DecidableEq, Repr

/-- Insertion into the `gofrog` string set: adding a member already present
is a no-op, a new member goes at the end. -/
def setAdd (s : List String) (x : String) : List String :=
  if x ∈ s then s else s ++ [x]

/-- The `gofrog` set built by adding every element of a list in order. -/
def setFromList (xs : List String) : List String :=
  xs.foldl setAdd []

/-- Mirror of `createFlatTree` (scarunner.go:299): a synthetic root node
with identifier "root" whose children are one leaf per entry of
`uniqueDeps`. The DEBUG-only JSON logging branch has no effect on the
returned node and is omitted. -/
def createFlatTree (uniqueDeps : List String) : GraphNode :=
  .mk "root" (uniqueDeps.map (fun uniqueDep => .mk uniqueDep []))

/-- Mirror of `getRequestedDirectoriesToScan` (scarunner.go:122): if the
caller specified no working directories, the current directory with
recursive mode; otherwise the deduplicated caller-specified directories,
non-recursively. -/
def getRequestedDirectoriesToScan (currentWorkingDir : String)
    (paramsWorkingDirs : List String) : List String × Bool :=
  let workingDirs := setFromList paramsWorkingDirs
  if paramsWorkingDirs.length = 0 then
    ([currentWorkingDir], true)
  else
    (workingDirs, false)

/-- Result of `coreutils.DetectTechnologiesDescriptors` for one directory:
a map from technology to a map from working directory to descriptor
paths, as an association list. -/
abbrev TechToWorkingDirs := List (Technology × List (String × List String))

/-- Inner loop body of `getScaScansToPreform` (scarunner.go:84-98) for one
detected technology entry: Dotnet is skipped; a technology with zero
working directories yields one unit rooted at the requested directory
with empty descriptors; every detected working directory yields a unit
with its descriptors. -/
def scanUnitsForTech (requestedDirectory : String)
    (tw : Technology × List (String × List String)) : List ScaScanResult :=
  if tw.1 = Technology.Dotnet then []
  else
    (if tw.2.length = 0 then
      [{ WorkingDirectory := requestedDirectory, Technology := tw.1 }]
    else []) ++
    tw.2.map (fun wd =>
      { WorkingDirectory := wd.1, Technology := tw.1, Descriptors := wd.2 })

/-- Outer loop body of `getScaScansToPreform` (scarunner.go:76-98) for one
requested directory: a detection error skips the directory (logged as a
warning in the source). -/
def scanUnitsForDirectory
    (detect : String → Bool → Except String TechToWorkingDirs)
    (isRecursive : Bool) (requestedDirectory : String) : List ScaScanResult :=
  match detect requestedDirectory isRecursive with
  | .error _ => []
  | .ok techToWorkingDirs =>
    techToWorkingDirs.flatMap (scanUnitsForTech requestedDirectory)

/-- Mirror of `getScaScansToPreform` (scarunner.go:74). `detect` stands for
`coreutils.DetectTechnologiesDescriptors` applied to a requested
directory and the recursion mode. -/
def getScaScansToPreform (currentWorkingDir : String)
    (paramsWorkingDirs : List String)
    (detect : String → Bool → Except String TechToWorkingDirs) :
    List ScaScanResult :=
  let p := getRequestedDirectoriesToScan currentWorkingDir paramsWorkingDirs
  p.1.flatMap (scanUnitsForDirectory detect p.2)

/-- Mirror of `shouldUseAllDependencies` (scarunner.go:187). -/
def shouldUseAllDependencies (thirdPartyApplicabilityScan : Bool)
    (tech : Technology) : Bool :=
  tech == Technology.Pip ||
    (thirdPartyApplicabilityScan && tech == Technology.Npm)

/-- Mirror of `getDirectDependenciesFromTree` (scarunner.go:192): collects
the identifiers of the direct children of every given tree into a set. -/
def getDirectDependenciesFromTree (dependencyTrees : List GraphNode) :
    List String :=
  setFromList (dependencyTrees.flatMap (fun tree => tree.Nodes.map GraphNode.Id))

/-- Mirror of `addThirdPartyDependenciesToParams` (scarunner.go:173),
returning the identifier list that is appended to the params for the
downstream applicability scan. -/
def addThirdPartyDependenciesToParams (thirdPartyApplicabilityScan : Bool)
    (tech : Technology) (flatTree : GraphNode)
    (fullDependencyTrees : List GraphNode) : List String :=
  if shouldUseAllDependencies thirdPartyApplicabilityScan tech then
    getDirectDependenciesFromTree [flatTree]
  else
    getDirectDependenciesFromTree fullDependencyTrees

/-- Error message of `executeScaScan` when the dependency tree is empty
(scarunner.go:145). -/
def noDepsMsg : String :=
  "no dependencies were found. Please try to build your project and re-run the audit command"

/-- Error wrap of `executeScaScan` around a tree-builder failure
(scarunner.go:142). -/
def buildFailMsg (tech : Technology) (e : String) : String :=
  "failed while building \x27" ++ tech.str ++ "\x27 dependency tree:\n" ++ e

/-- Error wrap of `executeScaScan` around an Xray scan failure
(scarunner.go:150). -/
def xrayFailMsg (tech : Technology) (e : String) : String :=
  "\x27" ++ tech.str ++ "\x27 Xray dependency tree scan request failed:\n" ++ e

/-- Error wrap of `runScaScan` around a failed scan unit
(scarunner.go:64). -/
def unitFailMsg (workingDirectory e : String) : String :=
  "audit command in \x27" ++ workingDirectory ++ "\x27 failed:\n" ++ e

/-- Mirror of `project.ProjectType` for the technologies this file maps. -/
inductive ProjectType where
  | Maven | Gradle | Npm | Yarn | Go | Pip | Pipenv | Poetry | Nuget | Dotnet
  deriving DecidableEq, Repr

/-- Mirror of the `techType` map (scarunner.go:248). -/
def techType : Technology → ProjectType
  | .Maven => .Maven
  | .Gradle => .Gradle
  | .Npm => .Npm
  | .Yarn => .Yarn
  | .Go => .Go
  | .Pip => .Pip
  | .Pipenv => .Pipenv
  | .Poetry => .Poetry
  | .Nuget => .Nuget
  | .Dotnet => .Dotnet

/-- Result of `project.ReadResolutionOnlyConfiguration`: a target repository
and the outcome of its `ServerDetails()` call (server details are kept
as an opaque string token). -/
structure RepoConfig where
  targetRepo : String
  serverDetailsResult : Except String String

/-- The slice of `AuditParams` that `SetResolutionRepoIfExists` reads and
writes: the dependencies repository, the ignore-config-file flag and the
server details. -/
structure AuditParamsModel where
  depsRepo : String
  ignoreConfigFile : Bool
  serverDetails : Option String := none
  deriving DecidableEq, Repr

/-- Filesystem and parser collaborators of `SetResolutionRepoIfExists`:
`getProjectConfFilePath pt` models `project.GetProjectConfFilePath`
(`.error` a lookup failure, `.ok none` file absent, `.ok (some path)`
file found), and `readResolutionOnlyConfiguration` models
`project.ReadResolutionOnlyConfiguration`. -/
structure ResolverEnv where
  getProjectConfFilePath : ProjectType → Except String (Option String)
  readResolutionOnlyConfiguration : String → Except String RepoConfig

/-- Error messages wrapped by `SetResolutionRepoIfExists`
(scarunner.go:261, 286, 291). -/
def searchFailMsg (tech : Technology) (e : String) : String :=
  "failed while searching for " ++ tech.str ++ ".yaml config file: " ++ e

/-- Error wrap for a config file that was found but could not be read. -/
def readFailMsg (tech : Technology) (e : String) : String :=
  "failed while reading " ++ tech.str ++ ".yaml config file: " ++ e

/-- Error wrap for a failing `repoConfig.ServerDetails()` call. -/
def serverDetailsFailMsg (e : String) : String :=
  "failed getting server details: " ++ e

/-- Tail of `SetResolutionRepoIfExists` (scarunner.go:283-296): read the
configuration at `configFilePath`, fetch its server details, and write
both the details and the target repository into the params. -/
def resolveFromConfig (env : ResolverEnv) (params : AuditParamsModel)
    (tech : Technology) (configFilePath : String) :
    AuditParamsModel × Option String :=
  match env.readResolutionOnlyConfiguration configFilePath with
  | .error e => (params, some (readFailMsg tech e))
  | .ok repoConfig =>
    match repoConfig.serverDetailsResult with
    | .error e => (params, some (serverDetailsFailMsg e))
    | .ok details =>
      ({ params with serverDetails := some details,
                     depsRepo := repoConfig.targetRepo }, none)

/-- Mirror of `SetResolutionRepoIfExists` (scarunner.go:254): no-op when a
dependencies repository is already set or config files are ignored;
otherwise look up the technology's config file, with the Nuget → Dotnet
fallback, and resolve from it when found. -/
def SetResolutionRepoIfExists (env : ResolverEnv) (params : AuditParamsModel)
    (tech : Technology) : AuditParamsModel × Option String :=
  if params.depsRepo ≠ "" ∨ params.ignoreConfigFile = true then
    (params, none)
  else
    match env.getProjectConfFilePath (techType tech) with
    | .error e => (params, some (searchFailMsg tech e))
    | .ok (some configFilePath) => resolveFromConfig env params tech configFilePath
    | .ok none =>
      if tech = Technology.Nuget then
        match env.getProjectConfFilePath (techType Technology.Dotnet) with
        | .error e => (params, some (searchFailMsg tech e))
        | .ok none => (params, none)
        | .ok (some configFilePath) => resolveFromConfig env params tech configFilePath
      else
        (params, none)

/-- Output of one per-technology tree builder (`java.BuildDependencyTree`
and friends, or the unsupported-technology error of the default switch
case): the full dependency trees, the unique dependency identifiers and
an optional error. -/
structure BuildOutput where
  fullDependencyTrees : List GraphNode
  uniqueDeps : List String
  buildErr : Option String

/-- Mirror of `GetTechDependencyTree` (scarunner.go:202) with its
collaborator calls abstracted: `serverDetailsErr` is the outcome of
`params.ServerDetails()`, `resolutionErr` the outcome of
`SetResolutionRepoIfExists`, and `build` the output of the technology's
tree builder. Returns (flat tree, full trees, error); the flat tree is
built only when the builder succeeded with a non-empty unique-dependency
list. -/
def GetTechDependencyTree (serverDetailsErr resolutionErr : Option String)
    (build : BuildOutput) :
    Option GraphNode × List GraphNode × Option String :=
  match serverDetailsErr with
  | some e => (none, [], some e)
  | none =>
    match resolutionErr with
    | some e => (none, [], some e)
    | none =>
      if build.buildErr.isSome ∨ build.uniqueDeps.length = 0 then
        (none, build.fullDependencyTrees, build.buildErr)
      else
        (some (createFlatTree build.uniqueDeps), build.fullDependencyTrees, none)

/-- Mirror of `executeScaScan` (scarunner.go:135) with its collaborator
calls abstracted: `chdirErr` is the outcome of `os.Chdir` into the
scan's working directory, `xray` the outcome of `runScaWithTech`.
Returns the updated scan unit or the unit's error. -/
def executeScaScan (chdirErr serverDetailsErr resolutionErr : Option String)
    (build : BuildOutput) (xray : Except String (List ScanResponse))
    (scan : ScaScanResult) : Except String ScaScanResult :=
  match chdirErr with
  | some e => .error e
  | none =>
    let g := GetTechDependencyTree serverDetailsErr resolutionErr build
    match g.2.2 with
    | some e => .error (buildFailMsg scan.Technology e)
    | none =>
      match g.1 with
      | none => .error noDepsMsg
      | some flattenTree =>
        if flattenTree.Nodes.length = 0 then .error noDepsMsg
        else
          match xray with
          | .error e => .error (xrayFailMsg scan.Technology e)
          | .ok scanResults =>
            .ok { scan with
                  IsMultipleRootProject := some (decide (g.2.1.length > 1)),
                  XrayResults := scan.XrayResults ++ scanResults }

/-- Process environment of the orchestrator loop: `chdir p` is the outcome
of `os.Chdir p` (`none` is success), and `execUnit cwd scan` runs
`executeScaScan` for one unit from working directory `cwd`, returning
the working directory it left behind and the unit's outcome. -/
structure ScanEnv where
  chdir : String → Option String
  execUnit : String → ScaScanResult → String × Except String ScaScanResult

/-- Mirror of the scan loop of `runScaScan` (scarunner.go:60-69): each unit
is attempted; a failed unit's wrapped error is joined onto the aggregate
and the loop continues; a successful unit is appended to the results. -/
def scanLoop (env : ScanEnv) :
    List ScaScanResult → String → List ScaScanResult → List String →
    String × List ScaScanResult × List String
  | [], cwd, results, errs => (cwd, results, errs)
  | scan :: rest, cwd, results, errs =>
    match env.execUnit cwd scan with
    | (cwd2, .error m) =>
      scanLoop env rest cwd2 results
        (errs ++ [unitFailMsg scan.WorkingDirectory m])
    | (cwd2, .ok scan2) =>
      scanLoop env rest cwd2 (results ++ [scan2]) errs

/-- Mirror of `runScaScan` from the point where the scan list is known
(scarunner.go:45-70): `currentWorkingDir` is the directory captured by
`os.Getwd`; with zero scans the function returns before registering the
deferred restore; otherwise the loop runs and the deferred
`os.Chdir(currentWorkingDir)` joins its own error, if any, onto the
aggregate. Returns (final working directory, results, aggregate error). -/
def runScaScan (env : ScanEnv) (currentWorkingDir : String)
    (scans : List ScaScanResult) (results0 : List ScaScanResult) :
    String × List ScaScanResult × List String :=
  if scans.length = 0 then (currentWorkingDir, results0, [])
  else
    let r := scanLoop env scans currentWorkingDir results0 []
    match env.chdir currentWorkingDir with
    | none => (currentWorkingDir, r.2.1, r.2.2)
    | some m => (r.1, r.2.1, r.2.2 ++ [m])

/-- Trace of the loop: the outcome `execUnit` produces for each scheduled
unit, in order, threading the working directory exactly as the loop
does. -/
def scanOutcomes (env : ScanEnv) :
    List ScaScanResult → String →
    List (ScaScanResult × Except String ScaScanResult)
  | [], _ => []
  | scan :: rest, cwd =>
    (scan, (env.execUnit cwd scan).2) ::
      scanOutcomes env rest (env.execUnit cwd scan).1

/-- Projection of one loop outcome onto the results collection: a
successful unit contributes its completed scan, a failed unit nothing. -/
def outcomeSuccess :
    ScaScanResult × Except String ScaScanResult → Option ScaScanResult
  | (_, .ok s) => some s
  | (_, .error _) => none

/-- Projection of one loop outcome onto the aggregate error: a failed unit
contributes its wrapped error, a successful unit nothing. -/
def outcomeFailure :
    ScaScanResult × Except String ScaScanResult → Option String
  | (scan, .error m) => some (unitFailMsg scan.WorkingDirectory m)
  | (_, .ok _) => none

/-! Concrete collaborator instances, used to evaluate the model on
specific runs. -/

/-- A detector that reports both NuGet and Dotnet indicators for the same
directory. -/
def detectBoth : String → Bool → Except String TechToWorkingDirs :=
  fun _ _ =>
    .ok [(Technology.Nuget, [("/repo", ["proj.csproj"])]),
         (Technology.Dotnet, [("/repo", ["proj.csproj"])])]

/-- A detector that reports an explicitly requested Pip with zero detected
working directories. -/
def detectPipNone : String → Bool → Except String TechToWorkingDirs :=
  fun _ _ => .ok [(Technology.Pip, [])]

/-- A resolver environment with an Npm config file, a Dotnet config file,
no config file for any other technology, and a readable configuration
naming a target repository. -/
def resolverEnvEx : ResolverEnv where
  getProjectConfFilePath := fun pt =>
    match pt with
    | .Npm => .ok (some "/repo/.jfrog/projects/npm.yaml")
    | .Dotnet => .ok (some "/repo/.jfrog/projects/dotnet.yaml")
    | _ => .ok none
  readResolutionOnlyConfiguration := fun _ =>
    .ok { targetRepo := "virtual-repo", serverDetailsResult := .ok "server-1" }

/-- A process environment whose chdir always succeeds and where Go scan
units succeed while every other unit fails. -/
def scanEnvEx : ScanEnv where
  chdir := fun _ => none
  execUnit := fun _ scan =>
    (scan.WorkingDirectory,
     if scan.Technology = Technology.Go then .ok scan else .error "boom")

/-- A process environment whose chdir always fails. -/
def scanEnvChdirFail : ScanEnv where
  chdir := fun _ => some "chdir failed"
  execUnit := fun _ scan => (scan.WorkingDirectory, .ok scan)

/-! Basic lemmas about the `gofrog` set model. -/

theorem mem_setAdd {s : List String} {x y : String} :
    y ∈ setAdd s x ↔ y ∈ s ∨ y = x := by
  by_cases h : x ∈ s
  · simp only [setAdd, if_pos h]
    constructor
    · exact Or.inl
    · rintro (hy | rfl)
      · exact hy
      · exact h
  · simp [setAdd, h]

theorem mem_foldl_setAdd (xs : List String) :
    ∀ (acc : List String) (y : String),
      y ∈ xs.foldl setAdd acc ↔ y ∈ acc ∨ y ∈ xs := by
  induction xs with
  | nil => simp
  | cons x rest ih =>
    intro acc y
    simp only [List.foldl_cons, ih, mem_setAdd, List.mem_cons]
    tauto

theorem mem_setFromList {xs : List String} {y : String} :
    y ∈ setFromList xs ↔ y ∈ xs := by
  unfold setFromList
  rw [mem_foldl_setAdd]
  simp

theorem foldl_setAdd_eq_append (xs : List String) :
    ∀ acc : List String, (acc ++ xs).Nodup → xs.foldl setAdd acc = acc ++ xs := by
  induction xs with
  | nil => simp
  | cons x rest ih =>
    intro acc h
    have hassoc : acc ++ x :: rest = (acc ++ [x]) ++ rest := by simp
    have hx : x ∉ acc := by
      rw [List.nodup_append] at h
      exact fun hmem => h.2.2 hmem (List.mem_cons_self x rest)
    have hadd : setAdd acc x = acc ++ [x] := by simp [setAdd, hx]
    rw [List.foldl_cons, hadd, ih (acc ++ [x]) (by rw [← hassoc]; exact h), hassoc]

theorem setFromList_eq_self {xs : List String} (h : xs.Nodup) :
    setFromList xs = xs := by
  unfold setFromList
  simpa using foldl_setAdd_eq_append xs [] (by simpa using h)

theorem createFlatTree_nodes_map (deps : List String) :
    (createFlatTree deps).Nodes.map GraphNode.Id = deps := by
  simp only [createFlatTree, GraphNode.Nodes, List.map_map]
  show List.map (fun d => d) deps = deps
  exact List.map_id' deps

/--
C3 counterexample: on the input `["a", "a"]`, which contains a duplicate,
`createFlatTree` produces two children with the same identifier, so the
children are not duplicate-free and the child count differs from the size
of the deduplicated input set. The claim's "regardless of ... duplicates in
the input" therefore fails: `createFlatTree` does not deduplicate.
-/
theorem createFlatTree_dup_counterexample :
    (createFlatTree ["a", "a"]).Nodes.map GraphNode.Id = ["a", "a"] ∧
    ¬ ((createFlatTree ["a", "a"]).Nodes.map GraphNode.Id).Nodup ∧
    (createFlatTree ["a", "a"]).Nodes.length ≠
      (["a", "a"] : List String).dedup.length := by
  refine ⟨rfl, ?_, ?_⟩ <;> decide

/--
C3 (amended): for every duplicate-free input list of identifier strings —
which is what every caller passes, the builders returning deduplicated
unique-dependency lists — `createFlatTree` returns a root node with Id
"root" whose direct children are one leaf node (no grandchildren) per
identifier, in input order, with no duplicate child identifiers, and the
child count equals the size of the deduplicated input set.
-/
theorem createFlatTree_spec (deps : List String) (h : deps.Nodup) :
    (createFlatTree deps).Id = "root" ∧
    (createFlatTree deps).Nodes.map GraphNode.Id = deps ∧
    (∀ n ∈ (createFlatTree deps).Nodes, n.Nodes = []) ∧
    ((createFlatTree deps).Nodes.map GraphNode.Id).Nodup ∧
    (createFlatTree deps).Nodes.length = deps.dedup.length := by
  have hmap := createFlatTree_nodes_map deps
  refine ⟨rfl, hmap, ?_, ?_, ?_⟩
  · intro n hn
    simp only [createFlatTree, GraphNode.Nodes, List.mem_map] at hn
    obtain ⟨d, _, rfl⟩ := hn
    rfl
  · rw [hmap]; exact h
  · rw [List.dedup_eq_self.mpr h]
    simp [createFlatTree, GraphNode.Nodes]

theorem createFlatTree_spec_witness :
    (["pkg:a@1", "pkg:b@2"] : List String).Nodup ∧
    ((createFlatTree ["pkg:a@1", "pkg:b@2"]).Id = "root" ∧
     (createFlatTree ["pkg:a@1", "pkg:b@2"]).Nodes.map GraphNode.Id =
       ["pkg:a@1", "pkg:b@2"] ∧
     (∀ n ∈ (createFlatTree ["pkg:a@1", "pkg:b@2"]).Nodes, n.Nodes = []) ∧
     ((createFlatTree ["pkg:a@1", "pkg:b@2"]).Nodes.map GraphNode.Id).Nodup ∧
     (createFlatTree ["pkg:a@1", "pkg:b@2"]).Nodes.length =
       (["pkg:a@1", "pkg:b@2"] : List String).dedup.length) :=
  ⟨by decide, createFlatTree_spec ["pkg:a@1", "pkg:b@2"] (by decide)⟩

/--
C9: `getRequestedDirectoriesToScan` returns the current working directory
with recursive mode true when the caller specified no working directories,
and otherwise a list with exactly the caller-specified directories as
members (deduplicated) with recursive mode false — recursion and an
explicit directory list never occur together.
-/
theorem getRequestedDirectoriesToScan_spec (currentWorkingDir : String)
    (paramsWorkingDirs : List String) :
    (paramsWorkingDirs = [] →
      getRequestedDirectoriesToScan currentWorkingDir paramsWorkingDirs =
        ([currentWorkingDir], true)) ∧
    (paramsWorkingDirs ≠ [] →
      (getRequestedDirectoriesToScan currentWorkingDir paramsWorkingDirs).2 =
        false ∧
      ∀ d, d ∈ (getRequestedDirectoriesToScan currentWorkingDir
          paramsWorkingDirs).1 ↔ d ∈ paramsWorkingDirs) := by
  constructor
  · rintro rfl; rfl
  · intro h
    have hlen : ¬ paramsWorkingDirs.length = 0 := by
      simpa [List.length_eq_zero] using h
    constructor
    · simp [getRequestedDirectoriesToScan, hlen]
    · intro d
      simp [getRequestedDirectoriesToScan, hlen, mem_setFromList]

theorem getRequestedDirectoriesToScan_spec_witness :
    (["a", "a", "b"] : List String) ≠ [] ∧
    (getRequestedDirectoriesToScan "/cwd" ["a", "a", "b"]).2 = false ∧
    ("a" ∈ (getRequestedDirectoriesToScan "/cwd" ["a", "a", "b"]).1 ↔
      "a" ∈ (["a", "a", "b"] : List String)) :=
  ⟨by decide,
   ((getRequestedDirectoriesToScan_spec "/cwd" ["a", "a", "b"]).2
     (by decide)).1,
   ((getRequestedDirectoriesToScan_spec "/cwd" ["a", "a", "b"]).2
     (by decide)).2 "a"⟩

/--
C10: the dependency identifiers recorded for downstream applicability
scanning are the (deduplicated) children of the flattened tree — i.e. all
unique dependencies — exactly when the technology is Pip, or when the
technology is Npm and the third-party-applicability-scan flag is set; for
every other technology they are the deduplicated direct children of the
full dependency trees.
-/
theorem addThirdPartyDependencies_spec (flag : Bool) (tech : Technology)
    (flatTree : GraphNode) (fullDependencyTrees : List GraphNode) :
    (shouldUseAllDependencies flag tech = true ↔
      (tech = Technology.Pip ∨ (flag = true ∧ tech = Technology.Npm))) ∧
    ((tech = Technology.Pip ∨ (flag = true ∧ tech = Technology.Npm)) →
      addThirdPartyDependenciesToParams flag tech flatTree
          fullDependencyTrees =
        setFromList (flatTree.Nodes.map GraphNode.Id)) ∧
    (¬ (tech = Technology.Pip ∨ (flag = true ∧ tech = Technology.Npm)) →
      addThirdPartyDependenciesToParams flag tech flatTree
          fullDependencyTrees =
        setFromList (fullDependencyTrees.flatMap
          (fun tree => tree.Nodes.map GraphNode.Id))) ∧
    (∀ deps : List String, deps.Nodup →
      (tech = Technology.Pip ∨ (flag = true ∧ tech = Technology.Npm)) →
      addThirdPartyDependenciesToParams flag tech (createFlatTree deps)
        fullDependencyTrees = deps) := by
  have hiff : shouldUseAllDependencies flag tech = true ↔
      (tech = Technology.Pip ∨ (flag = true ∧ tech = Technology.Npm)) := by
    simp [shouldUseAllDependencies]
  have hthen : ∀ t : GraphNode,
      (tech = Technology.Pip ∨ (flag = true ∧ tech = Technology.Npm)) →
      addThirdPartyDependenciesToParams flag tech t fullDependencyTrees =
        setFromList (t.Nodes.map GraphNode.Id) := by
    intro t h
    simp [addThirdPartyDependenciesToParams, hiff.mpr h,
      getDirectDependenciesFromTree]
  refine ⟨hiff, hthen flatTree, ?_, ?_⟩
  · intro h
    have hfalse : shouldUseAllDependencies flag tech = false := by
      rcases Bool.eq_false_or_eq_true (shouldUseAllDependencies flag tech)
        with ht | hf
      · exact absurd (hiff.mp ht) h
      · exact hf
    simp [addThirdPartyDependenciesToParams, hfalse,
      getDirectDependenciesFromTree]
  · intro deps hdep h
    rw [hthen (createFlatTree deps) h, createFlatTree_nodes_map,
      setFromList_eq_self hdep]

theorem addThirdPartyDependencies_spec_witness :
    (shouldUseAllDependencies false Technology.Pip = true ↔
      (Technology.Pip = Technology.Pip ∨
        (false = true ∧ Technology.Pip = Technology.Npm))) ∧
    addThirdPartyDependenciesToParams false Technology.Pip
      (createFlatTree ["x", "y"]) [] = ["x", "y"] :=
  ⟨(addThirdPartyDependencies_spec false Technology.Pip
      (createFlatTree ["x", "y"]) []).1,
   (addThirdPartyDependencies_spec false Technology.Pip
      (createFlatTree ["x", "y"]) []).2.2.2 ["x", "y"] (by decide)
      (Or.inl rfl)⟩

theorem scanUnitsForTech_mem {d : String}
    {tw : Technology × List (String × List String)} {u : ScaScanResult}
    (hu : u ∈ scanUnitsForTech d tw) :
    u.Technology = tw.1 ∧ tw.1 ≠ Technology.Dotnet := by
  unfold scanUnitsForTech at hu
  split at hu
  · simp at hu
  · rename_i hne
    refine ⟨?_, hne⟩
    rcases List.mem_append.mp hu with h1 | h2
    · split at h1
      · rw [List.mem_singleton.mp h1]
      · simp at h1
    · obtain ⟨wd, _, rfl⟩ := List.mem_map.mp h2
      rfl

/--
C5: no scheduled scan unit ever has the Dotnet technology, and when
detection reports both NuGet and Dotnet for the same directory exactly one
scan unit (NuGet) is scheduled.
-/
theorem getScaScansToPreform_no_dotnet (currentWorkingDir : String)
    (paramsWorkingDirs : List String)
    (detect : String → Bool → Except String TechToWorkingDirs) :
    (∀ u ∈ getScaScansToPreform currentWorkingDir paramsWorkingDirs detect,
      u.Technology ≠ Technology.Dotnet) ∧
    (∀ d wd ds, paramsWorkingDirs = [d] →
      detect d false = .ok [(Technology.Nuget, [(wd, ds)]),
                            (Technology.Dotnet, [(wd, ds)])] →
      getScaScansToPreform currentWorkingDir paramsWorkingDirs detect =
        [{ WorkingDirectory := wd, Technology := Technology.Nuget,
           Descriptors := ds }]) := by
  constructor
  · intro u hu
    unfold getScaScansToPreform at hu
    obtain ⟨dir, _, hu⟩ := List.mem_flatMap.mp hu
    unfold scanUnitsForDirectory at hu
    split at hu
    · simp at hu
    · obtain ⟨tw, _, hu⟩ := List.mem_flatMap.mp hu
      rw [(scanUnitsForTech_mem hu).1]
      exact (scanUnitsForTech_mem hu).2
  · rintro d wd ds rfl hdet
    simp [getScaScansToPreform, getRequestedDirectoriesToScan, setFromList,
      setAdd, scanUnitsForDirectory, hdet, scanUnitsForTech]

theorem getScaScansToPreform_no_dotnet_witness :
    getScaScansToPreform "/c" ["/req"] detectBoth =
      [{ WorkingDirectory := "/repo", Technology := Technology.Nuget,
         Descriptors := ["proj.csproj"] }] :=
  (getScaScansToPreform_no_dotnet "/c" ["/req"] detectBoth).2
    "/req" "/repo" ["proj.csproj"] rfl rfl

theorem scanUnitsForTech_filter_ne {d : String} {tech : Technology}
    (tw : Technology × List (String × List String)) (h : tw.1 ≠ tech) :
    (scanUnitsForTech d tw).filter (fun u => u.Technology == tech) = [] := by
  apply List.filter_eq_nil_iff.mpr
  intro u hu
  have h1 := (scanUnitsForTech_mem hu).1
  simp [h1, h]

theorem flatMap_scanUnits_filter_ne {d : String} {tech : Technology}
    (m : TechToWorkingDirs) (h : tech ∉ m.map Prod.fst) :
    (m.flatMap (scanUnitsForTech d)).filter
      (fun u => u.Technology == tech) = [] := by
  apply List.filter_eq_nil_iff.mpr
  intro u hu
  obtain ⟨tw, htw, hu⟩ := List.mem_flatMap.mp hu
  have h1 := (scanUnitsForTech_mem hu).1
  have h2 : tw.1 ≠ tech := fun he => h (he ▸ List.mem_map.mpr ⟨tw, htw, rfl⟩)
  simp [h1, h2]

theorem filter_flatMap_units (d : String) (tech : Technology) :
    ∀ m : TechToWorkingDirs, (m.map Prod.fst).Nodup →
      (tech, ([] : List (String × List String))) ∈ m →
      tech ≠ Technology.Dotnet →
      (m.flatMap (scanUnitsForTech d)).filter
          (fun u => u.Technology == tech) =
        [{ WorkingDirectory := d, Technology := tech }] := by
  intro m
  induction m with
  | nil =>
    intro _ hmem
    simp at hmem
  | cons tw rest ih =>
    intro hnd hmem htech
    rw [List.map_cons, List.nodup_cons] at hnd
    rw [List.flatMap_cons, List.filter_append]
    rcases List.mem_cons.mp hmem with heq | hrest
    · have heq2 : tw = (tech, []) := heq.symm
      subst heq2
      have hrestne : tech ∉ rest.map Prod.fst := hnd.1
      rw [flatMap_scanUnits_filter_ne rest hrestne]
      simp [scanUnitsForTech, htech]
    · have hkey : tech ∈ rest.map Prod.fst :=
        List.mem_map.mpr ⟨(tech, []), hrest, rfl⟩
      have hne : tw.1 ≠ tech := fun he => (he ▸ hnd.1) hkey
      rw [scanUnitsForTech_filter_ne tw hne, List.nil_append]
      exact ih hnd.2 hrest htech

/--
C4: when a technology is present in the detection result with zero
associated working directories (an explicitly requested technology whose
indicator files were not found) and is not Dotnet, the scheduler produces
exactly one scan unit for that technology, rooted at the requested
directory, with empty descriptors.
-/
theorem getScaScansToPreform_requested_tech (currentWorkingDir d : String)
    (detect : String → Bool → Except String TechToWorkingDirs)
    (m : TechToWorkingDirs) (tech : Technology)
    (hdet : detect d false = .ok m)
    (hnd : (m.map Prod.fst).Nodup)
    (hmem : (tech, ([] : List (String × List String))) ∈ m)
    (htech : tech ≠ Technology.Dotnet) :
    (getScaScansToPreform currentWorkingDir [d] detect).filter
        (fun u => u.Technology == tech) =
      [{ WorkingDirectory := d, Technology := tech }] := by
  have hreq : getRequestedDirectoriesToScan currentWorkingDir [d] =
      ([d], false) := by
    simp [getRequestedDirectoriesToScan, setFromList, setAdd]
  simp only [getScaScansToPreform, hreq, List.flatMap_cons, List.flatMap_nil,
    List.append_nil, scanUnitsForDirectory, hdet]
  exact filter_flatMap_units d tech m hnd hmem htech

theorem getScaScansToPreform_requested_tech_witness :
    (getScaScansToPreform "/c" ["/req"] detectPipNone).filter
        (fun u => u.Technology == Technology.Pip) =
      [{ WorkingDirectory := "/req", Technology := Technology.Pip }] :=
  getScaScansToPreform_requested_tech "/c" "/req" detectPipNone
    [(Technology.Pip, [])] Technology.Pip rfl (by decide) (by decide)
    (by decide)

/--
C7: when the technology's configuration file is found, the resolver parses
it and writes the server connection details and target repository name
into the params; any search, read/parse, or server-details lookup failure
returns a non-nil error; absence of the config file (for a non-NuGet
technology) is a silent non-error no-op.
-/
theorem SetResolutionRepoIfExists_spec (env : ResolverEnv)
    (params : AuditParamsModel) (tech : Technology)
    (hrepo : params.depsRepo = "") (hig : params.ignoreConfigFile = false) :
    (∀ p cfg d, env.getProjectConfFilePath (techType tech) = .ok (some p) →
      env.readResolutionOnlyConfiguration p = .ok cfg →
      cfg.serverDetailsResult = .ok d →
      SetResolutionRepoIfExists env params tech =
        ({ params with serverDetails := some d,
                       depsRepo := cfg.targetRepo }, none)) ∧
    (∀ e, env.getProjectConfFilePath (techType tech) = .error e →
      (SetResolutionRepoIfExists env params tech).2 =
        some (searchFailMsg tech e)) ∧
    (∀ p e, env.getProjectConfFilePath (techType tech) = .ok (some p) →
      env.readResolutionOnlyConfiguration p = .error e →
      (SetResolutionRepoIfExists env params tech).2 =
        some (readFailMsg tech e)) ∧
    (∀ p cfg e, env.getProjectConfFilePath (techType tech) = .ok (some p) →
      env.readResolutionOnlyConfiguration p = .ok cfg →
      cfg.serverDetailsResult = .error e →
      (SetResolutionRepoIfExists env params tech).2 =
        some (serverDetailsFailMsg e)) ∧
    (tech ≠ Technology.Nuget →
      env.getProjectConfFilePath (techType tech) = .ok none →
      SetResolutionRepoIfExists env params tech = (params, none)) := by
  have hguard : ¬ (params.depsRepo ≠ "" ∨ params.ignoreConfigFile = true) := by
    simp [hrepo, hig]
  refine ⟨?_, ?_, ?_, ?_, ?_⟩
  · intro p cfg d h1 h2 h3
    simp [SetResolutionRepoIfExists, hguard, h1, resolveFromConfig, h2, h3]
  · intro e h1
    simp [SetResolutionRepoIfExists, hguard, h1]
  · intro p e h1 h2
    simp [SetResolutionRepoIfExists, hguard, h1, resolveFromConfig, h2]
  · intro p cfg e h1 h2 h3
    simp [SetResolutionRepoIfExists, hguard, h1, resolveFromConfig, h2, h3]
  · intro hne h1
    simp [SetResolutionRepoIfExists, hguard, h1, hne]

theorem SetResolutionRepoIfExists_spec_witness :
    SetResolutionRepoIfExists resolverEnvEx
        { depsRepo := "", ignoreConfigFile := false } Technology.Npm =
      ({ depsRepo := "virtual-repo", ignoreConfigFile := false,
         serverDetails := some "server-1" }, none) :=
  (SetResolutionRepoIfExists_spec resolverEnvEx
      { depsRepo := "", ignoreConfigFile := false } Technology.Npm rfl rfl).1
    "/repo/.jfrog/projects/npm.yaml"
    { targetRepo := "virtual-repo", serverDetailsResult := .ok "server-1" }
    "server-1" rfl rfl rfl

/--
C8: for NuGet only, when no NuGet configuration file exists the resolver
additionally checks for a Dotnet configuration file (and resolves from it
when present, falling back silently only when both are absent); for every
other technology, absence of that technology's own config file ends the
lookup immediately with no error and unchanged params.
-/
theorem SetResolutionRepoIfExists_nuget_fallback (env : ResolverEnv)
    (params : AuditParamsModel)
    (hrepo : params.depsRepo = "") (hig : params.ignoreConfigFile = false) :
    (∀ p cfg d,
      env.getProjectConfFilePath (techType Technology.Nuget) = .ok none →
      env.getProjectConfFilePath (techType Technology.Dotnet) = .ok (some p) →
      env.readResolutionOnlyConfiguration p = .ok cfg →
      cfg.serverDetailsResult = .ok d →
      SetResolutionRepoIfExists env params Technology.Nuget =
        ({ params with serverDetails := some d,
                       depsRepo := cfg.targetRepo }, none)) ∧
    (env.getProjectConfFilePath (techType Technology.Nuget) = .ok none →
      env.getProjectConfFilePath (techType Technology.Dotnet) = .ok none →
      SetResolutionRepoIfExists env params Technology.Nuget =
        (params, none)) ∧
    (∀ tech, tech ≠ Technology.Nuget →
      env.getProjectConfFilePath (techType tech) = .ok none →
      SetResolutionRepoIfExists env params tech = (params, none)) := by
  have hguard : ¬ (params.depsRepo ≠ "" ∨ params.ignoreConfigFile = true) := by
    simp [hrepo, hig]
  refine ⟨?_, ?_, ?_⟩
  · intro p cfg d h1 h2 h3 h4
    simp [SetResolutionRepoIfExists, hguard, h1, h2, resolveFromConfig,
      h3, h4]
  · intro h1 h2
    simp [SetResolutionRepoIfExists, hguard, h1, h2]
  · intro tech hne h1
    simp [SetResolutionRepoIfExists, hguard, h1, hne]

theorem SetResolutionRepoIfExists_nuget_fallback_witness :
    SetResolutionRepoIfExists resolverEnvEx
        { depsRepo := "", ignoreConfigFile := false } Technology.Nuget =
      ({ depsRepo := "virtual-repo", ignoreConfigFile := false,
         serverDetails := some "server-1" }, none) ∧
    SetResolutionRepoIfExists resolverEnvEx
        { depsRepo := "", ignoreConfigFile := false } Technology.Go =
      ({ depsRepo := "", ignoreConfigFile := false }, none) :=
  ⟨(SetResolutionRepoIfExists_nuget_fallback resolverEnvEx
      { depsRepo := "", ignoreConfigFile := false } rfl rfl).1
    "/repo/.jfrog/projects/dotnet.yaml"
    { targetRepo := "virtual-repo", serverDetailsResult := .ok "server-1" }
    "server-1" rfl rfl rfl rfl,
   (SetResolutionRepoIfExists_nuget_fallback resolverEnvEx
      { depsRepo := "", ignoreConfigFile := false } rfl rfl).2.2
    Technology.Go (by decide) rfl⟩

/--
C6 counterexample: when the tree builder returns an error together with an
empty unique-dependency list, `executeScaScan` fails with the generic
tree-construction wrap, not with the actionable no-dependencies message —
refuting the claim's "including when the builder also returns an error".
-/
theorem executeScaScan_builder_error_counterexample :
    executeScaScan none none none
        { fullDependencyTrees := [], uniqueDeps := [],
          buildErr := some "builder failed" }
        (Except.ok [])
        { WorkingDirectory := "/repo", Technology := Technology.Npm } =
      Except.error (buildFailMsg Technology.Npm "builder failed") ∧
    buildFailMsg Technology.Npm "builder failed" ≠ noDepsMsg := by
  constructor
  · rfl
  · decide

/--
C6 (amended): for every scan unit whose tree-builder invocation returns no
error and an empty unique-dependency list, the unit fails with the
actionable no-dependencies message; when the builder returns an error the
unit fails with the generic tree-construction wrap instead. Either way the
failure is an error of that unit only (the loop treats it per C1).
-/
theorem executeScaScan_empty_deps (build : BuildOutput)
    (xray : Except String (List ScanResponse)) (scan : ScaScanResult)
    (hdeps : build.uniqueDeps = []) :
    (build.buildErr = none →
      executeScaScan none none none build xray scan =
        Except.error noDepsMsg) ∧
    (∀ e, build.buildErr = some e →
      executeScaScan none none none build xray scan =
        Except.error (buildFailMsg scan.Technology e)) := by
  constructor
  · intro h
    simp [executeScaScan, GetTechDependencyTree, hdeps, h]
  · intro e h
    simp [executeScaScan, GetTechDependencyTree, hdeps, h]

theorem executeScaScan_empty_deps_witness :
    executeScaScan none none none
        { fullDependencyTrees := [], uniqueDeps := [], buildErr := none }
        (Except.ok [])
        { WorkingDirectory := "/repo", Technology := Technology.Npm } =
      Except.error noDepsMsg :=
  (executeScaScan_empty_deps
      { fullDependencyTrees := [], uniqueDeps := [], buildErr := none }
      (Except.ok [])
      { WorkingDirectory := "/repo", Technology := Technology.Npm } rfl).1 rfl

theorem scanOutcomes_length (env : ScanEnv) :
    ∀ (scans : List ScaScanResult) (cwd : String),
      (scanOutcomes env scans cwd).length = scans.length := by
  intro scans
  induction scans with
  | nil => intro cwd; rfl
  | cons scan rest ih => intro cwd; simp [scanOutcomes, ih]

theorem scanLoop_spec (env : ScanEnv) :
    ∀ (scans : List ScaScanResult) (cwd : String)
      (results : List ScaScanResult) (errs : List String),
      (scanLoop env scans cwd results errs).2.1 =
        results ++ (scanOutcomes env scans cwd).filterMap outcomeSuccess ∧
      (scanLoop env scans cwd results errs).2.2 =
        errs ++ (scanOutcomes env scans cwd).filterMap outcomeFailure := by
  intro scans
  induction scans with
  | nil =>
    intro cwd results errs
    simp [scanLoop, scanOutcomes]
  | cons scan rest ih =>
    intro cwd results errs
    rcases hexec : env.execUnit cwd scan with ⟨cwd2, out⟩
    have houtcomes : scanOutcomes env (scan :: rest) cwd =
        (scan, out) :: scanOutcomes env rest cwd2 := by
      simp [scanOutcomes, hexec]
    cases out with
    | error m =>
      have hloop : scanLoop env (scan :: rest) cwd results errs =
          scanLoop env rest cwd2 results
            (errs ++ [unitFailMsg scan.WorkingDirectory m]) := by
        simp [scanLoop, hexec]
      rw [hloop, houtcomes]
      obtain ⟨ha, hb⟩ :=
        ih cwd2 results (errs ++ [unitFailMsg scan.WorkingDirectory m])
      constructor
      · rw [ha]; simp [outcomeSuccess]
      · rw [hb]; simp [outcomeFailure]
    | ok scan2 =>
      have hloop : scanLoop env (scan :: rest) cwd results errs =
          scanLoop env rest cwd2 (results ++ [scan2]) errs := by
        simp [scanLoop, hexec]
      rw [hloop, houtcomes]
      obtain ⟨ha, hb⟩ := ih cwd2 (results ++ [scan2]) errs
      constructor
      · rw [ha]; simp [outcomeSuccess]
      · rw [hb]; simp [outcomeFailure]

theorem outcomeFailure_eq_none
    {p : ScaScanResult × Except String ScaScanResult} :
    outcomeFailure p = none ↔ ∃ s, p.2 = Except.ok s := by
  rcases p with ⟨scan, out⟩
  cases out <;> simp [outcomeFailure]

/--
C1: every scheduled unit is attempted (the outcome trace has one entry per
unit), the results collection is extended by exactly the successful units
and by no failed unit, the aggregate error is exactly the join of the
failed units' wrapped errors, and it is nil precisely when every unit
succeeded. Stated under a successful restoring chdir, whose own error
belongs to C2.
-/
theorem runScaScan_attempts_all (env : ScanEnv) (currentWorkingDir : String)
    (scans : List ScaScanResult) (results0 : List ScaScanResult)
    (hres : env.chdir currentWorkingDir = none) :
    (scanOutcomes env scans currentWorkingDir).length = scans.length ∧
    (runScaScan env currentWorkingDir scans results0).2.1 =
      results0 ++
        (scanOutcomes env scans currentWorkingDir).filterMap
          outcomeSuccess ∧
    (runScaScan env currentWorkingDir scans results0).2.2 =
      (scanOutcomes env scans currentWorkingDir).filterMap outcomeFailure ∧
    ((runScaScan env currentWorkingDir scans results0).2.2 = [] ↔
      ∀ p ∈ scanOutcomes env scans currentWorkingDir,
        ∃ s, p.2 = Except.ok s) := by
  refine ⟨scanOutcomes_length env scans currentWorkingDir, ?_⟩
  have hmain :
      (runScaScan env currentWorkingDir scans results0).2.1 =
        results0 ++
          (scanOutcomes env scans currentWorkingDir).filterMap
            outcomeSuccess ∧
      (runScaScan env currentWorkingDir scans results0).2.2 =
        (scanOutcomes env scans currentWorkingDir).filterMap
          outcomeFailure := by
    by_cases hlen : scans.length = 0
    · have hnil : scans = [] := List.length_eq_zero.mp hlen
      subst hnil
      simp [runScaScan, scanOutcomes]
    · obtain ⟨ha, hb⟩ := scanLoop_spec env scans currentWorkingDir results0 []
      simp only [runScaScan, if_neg hlen, hres]
      exact ⟨ha, by rw [hb]; simp⟩
  refine ⟨hmain.1, hmain.2, ?_⟩
  rw [hmain.2, List.filterMap_eq_nil_iff]
  constructor
  · intro h p hp
    exact outcomeFailure_eq_none.mp (h p hp)
  · intro h p hp
    exact outcomeFailure_eq_none.mpr (h p hp)

theorem runScaScan_attempts_all_witness :
    (scanOutcomes scanEnvEx
        [{ WorkingDirectory := "/go", Technology := Technology.Go },
         { WorkingDirectory := "/npm", Technology := Technology.Npm }]
        "/orig").length =
      ([{ WorkingDirectory := "/go", Technology := Technology.Go },
        { WorkingDirectory := "/npm", Technology := Technology.Npm }] :
        List ScaScanResult).length ∧
    (runScaScan scanEnvEx "/orig"
        [{ WorkingDirectory := "/go", Technology := Technology.Go },
         { WorkingDirectory := "/npm", Technology := Technology.Npm }]
        []).2.1 =
      [] ++ (scanOutcomes scanEnvEx
        [{ WorkingDirectory := "/go", Technology := Technology.Go },
         { WorkingDirectory := "/npm", Technology := Technology.Npm }]
        "/orig").filterMap outcomeSuccess :=
  ⟨(runScaScan_attempts_all scanEnvEx "/orig"
      [{ WorkingDirectory := "/go", Technology := Technology.Go },
       { WorkingDirectory := "/npm", Technology := Technology.Npm }]
      [] rfl).1,
   (runScaScan_attempts_all scanEnvEx "/orig"
      [{ WorkingDirectory := "/go", Technology := Technology.Go },
       { WorkingDirectory := "/npm", Technology := Technology.Npm }]
      [] rfl).2.1⟩

/--
C2: for every run that reaches the scan loop (a non-empty scan list), the
deferred restoring chdir to the captured working directory is always
executed: when it succeeds the final working directory equals the captured
one, whatever the units did; when it fails its error is joined into the
returned aggregate error rather than swallowed.
-/
theorem runScaScan_restores_cwd (env : ScanEnv) (currentWorkingDir : String)
    (scans : List ScaScanResult) (results0 : List ScaScanResult)
    (hne : scans ≠ []) :
    (env.chdir currentWorkingDir = none →
      (runScaScan env currentWorkingDir scans results0).1 =
        currentWorkingDir) ∧
    (∀ m, env.chdir currentWorkingDir = some m →
      m ∈ (runScaScan env currentWorkingDir scans results0).2.2) := by
  have hlen : ¬ scans.length = 0 := by
    simpa [List.length_eq_zero] using hne
  constructor
  · intro h
    simp [runScaScan, hlen, h]
  · intro m h
    simp [runScaScan, hlen, h]

theorem runScaScan_restores_cwd_witness :
    (runScaScan scanEnvEx "/orig"
        [{ WorkingDirectory := "/go", Technology := Technology.Go }] []).1 =
      "/orig" ∧
    "chdir failed" ∈ (runScaScan scanEnvChdirFail "/orig"
        [{ WorkingDirectory := "/go", Technology := Technology.Go }]
        []).2.2 :=
  ⟨(runScaScan_restores_cwd scanEnvEx "/orig"
      [{ WorkingDirectory := "/go", Technology := Technology.Go }] []
      (List.cons_ne_nil _ _)).1 rfl,
   (runScaScan_restores_cwd scanEnvChdirFail "/orig"
      [{ WorkingDirectory := "/go", Technology := Technology.Go }] []
      (List.cons_ne_nil _ _)).2 "chdir failed" rfl⟩

end Audit
